import Mathlib

/-!
Verification of the `jpegutil` package: a byte-exact JPEG container editor
that validates SOI/EOI markers, scans the segment-marker chain to the DQT
marker, and splices a freshly synthesized EXIF/TIFF APP1 metadata segment
into the stream.

The embedding models a seekable byte stream (`io.ReadSeeker` backed by the
stream's bytes) as a `List Nat` of byte values together with explicit
cursor positions.  Reads are modelled exactly as `bytes.Reader.Read`: a
read at position `pos` returns `min (buffer length) (length - pos)` bytes
and fails with `io.EOF` only when no byte is available.  Fallible
operations return `Except JErr`.
-/

namespace Jpegutil

/-- JPEG start-of-image marker bytes (`soi` in the source). -/
def soi : List Nat := [0xFF, 0xD8]

/-- APP1 segment marker bytes (`app1` in the source). -/
def app1 : List Nat := [0xFF, 0xE1]

/-- EXIF header bytes (`exif` in the source). -/
def exif : List Nat := [0x45, 0x78, 0x69, 0x66, 0x00, 0x00]

/-- TIFF header bytes, Motorola big endian (`tiff` in the source). -/
def tiff : List Nat := [0x4D, 0x4D, 0x00, 0x2A, 0x00, 0x00, 0x00, 0x08]

/-- Zero pointer to the next IFD directory (`ifd0Next` in the source). -/
def ifd0Next : List Nat := [0x00, 0x00, 0x00, 0x00]

/-- Define-quantization-table marker bytes (`dqt` in the source). -/
def dqt : List Nat := [0xFF, 0xDB]

/-- Two zero padding bytes between APP1 and DQT (`segPad` in the source). -/
def segPad : List Nat := [0x00, 0x00]

/-- JPEG end-of-image marker bytes (`eoi` in the source). -/
def eoi : List Nat := [0xFF, 0xD9]

/-- Error outcomes of the package, one per `return err` path:
`eof` is `io.EOF` surfaced by a read at end of stream, `seekNegative` is
the `bytes.Reader` error for seeking to a negative position, and the
remaining constructors stand for the package's own error values.
`panicByteCount` stands for the `panic` in `scratch.bytes`. -/
inductive JErr where
  | eof
  | missingSOI
  | missingEOI
  | seekNegative
  | shortSegmentRead
  | segmentTooSmall
  | app1TooLong
  | panicByteCount
  deriving DecidableEq, Repr

/-- Buffer contents after `rs.Read(p)` at position `pos` of stream `bs`:
the available bytes (at most `old.length` of them) overwrite the front of
the previous buffer contents `old`; stale bytes beyond the read count are
kept, exactly as Go's `Read` leaves them. -/
def readFill (bs : List Nat) (pos : Nat) (old : List Nat) : List Nat :=
  List.take old.length (List.drop pos bs) ++
    List.drop (List.take old.length (List.drop pos bs)).length old

/-- Function `Assert` from the source: seek to the start, read two bytes into a
zeroed 2-byte buffer and compare with SOI, then seek to two bytes before
the end, read into the same buffer and compare with EOI.  The first read
fails with `io.EOF` when the stream is empty; for the final read an
`io.EOF` is explicitly tolerated by the source (`errors.Is(err, io.EOF)`),
and in this byte-stream model no other read error can occur, so no error
is propagated from it. -/
def Assert (bs : List Nat) : Except JErr Unit :=
  if bs.length ≤ 0 then .error .eof
  else if readFill bs 0 [0, 0] ≠ soi then .error .missingSOI
  else if bs.length < 2 then .error .seekNegative
  else if readFill bs (bs.length - 2) (readFill bs 0 [0, 0]) ≠ eoi then
    .error .missingEOI
  else .ok ()

/-- The `tag` enumeration of the source (`MetaArtist = 0`, `MetaTitle = 1`,
`MetaCopyright = 2`). -/
inductive Tag where
  | MetaArtist
  | MetaTitle
  | MetaCopyright
  deriving DecidableEq, Repr

/-- The numeric value of a `tag` constant (`int(t)` in the source). -/
def Tag.toInt : Tag → Nat
  | .MetaArtist => 0
  | .MetaTitle => 1
  | .MetaCopyright => 2

/-- The `tag(t)` conversion from a sorted int back to a `tag`; only the
values 0, 1, 2 produced by `Tag.toInt` ever reach it. -/
def Tag.ofInt : Nat → Tag
  | 0 => .MetaArtist
  | 1 => .MetaTitle
  | _ => .MetaCopyright

/-- Table `tagMarker` from the source: first two bytes are the EXIF tag id,
second two are the type (always 2 = ASCII string). -/
def tagMarker : Tag → List Nat
  | .MetaArtist => [0x01, 0x3B, 0x00, 0x02]
  | .MetaTitle => [0x01, 0x0E, 0x00, 0x02]
  | .MetaCopyright => [0x82, 0x98, 0x00, 0x02]

/-- The `MetaData` map, embedded as an association list whose order plays
the role of Go's map iteration order; the Go map's key uniqueness is the
`Nodup` hypothesis on `md.map Prod.fst` where a theorem needs it.  String
values are byte lists. -/
abbrev MetaData := List (Tag × List Nat)

/-- Go map indexing `md[t]`. -/
def mdLookup (md : MetaData) (t : Tag) : Option (List Nat) :=
  match md with
  | [] => none
  | (k, v) :: rest => if k = t then some v else mdLookup rest t

/-- Model of `binary.BigEndian.PutUint16(p, uint16(n))`: the two big-endian bytes
of `n` truncated to 16 bits. -/
def be16 (n : Nat) : List Nat := [n / 2 ^ 8 % 2 ^ 8, n % 2 ^ 8]

/-- Model of `binary.BigEndian.PutUint32(p, uint32(n))`: the four big-endian bytes
of `n` truncated to 32 bits. -/
def be32 (n : Nat) : List Nat :=
  [n / 2 ^ 24 % 2 ^ 8, n / 2 ^ 16 % 2 ^ 8, n / 2 ^ 8 % 2 ^ 8, n % 2 ^ 8]

/-- Function `scratch.bytes(n, byteCount)` from the source: 2- or 4-byte big-endian
encodings; any other `byteCount` hits the `panic`, modelled as `none`. -/
def scratchBytes (n byteCount : Nat) : Option (List Nat) :=
  if byteCount = 2 then some (be16 n)
  else if byteCount = 4 then some (be32 n)
  else none

/-- Big-endian value of a byte list (used to read fields back out of the
emitted segment when stating offset correctness). -/
def be32decode (l : List Nat) : Nat :=
  l.foldl (fun acc b => acc * 2 ^ 8 + b) 0

/-- The 4-byte window `rs.Read(p)` yields at position `pos` of the scan:
marker (2 bytes) plus big-endian segment length (2 bytes). -/
def segWindow (bs : List Nat) (pos : Nat) : List Nat :=
  List.take 4 (List.drop pos bs)

/-- The declared segment length `binary.BigEndian.Uint16(p[2:4])`. -/
def declaredLen (p : List Nat) : Nat := p.getD 2 0 * 2 ^ 8 + p.getD 3 0

/-- The scan loop of `SetMeta`'s `seekToDQT` (first copy in the source,
whose sanity floor is `segLen < 8`).  At each position: a read with no
byte available returns `io.EOF`; a read of fewer than 4 bytes fails with
the short-read error; a DQT marker stops the scan and the final
`Seek(-4, io.SeekCurrent)` leaves the cursor at the marker start, here the
returned position; otherwise the source forms `segLen = int64(declared) -
2` and fails when `segLen < 8`, which over the integers is exactly
`declared < 10`, else it skips `segLen` bytes past the 4 already read. -/
def seekToDQTLoop (bs : List Nat) (pos : Nat) : Except JErr Nat :=
  if bs.length ≤ pos then .error .eof
  else if (segWindow bs pos).length ≠ 4 then .error .shortSegmentRead
  else if List.take 2 (segWindow bs pos) = dqt then .ok pos
  else if declaredLen (segWindow bs pos) < 10 then .error .segmentTooSmall
  else seekToDQTLoop bs (pos + 4 + (declaredLen (segWindow bs pos) - 2))
termination_by bs.length - pos
decreasing_by
  simp_all [segWindow, declaredLen]
  omega

/-- Function `seekToDQT` of the first package copy: `Seek(2, io.SeekStart)` then
the scan loop. -/
def seekToDQT (bs : List Nat) : Except JErr Nat := seekToDQTLoop bs 2

/-- The scan loop of `ReplaceMeta`'s `seekToDQT` (second copy in the
source), identical except for its sanity floor `segLen < 6`, i.e.
`declared < 8`. -/
def seekToDQTLoopR (bs : List Nat) (pos : Nat) : Except JErr Nat :=
  if bs.length ≤ pos then .error .eof
  else if (segWindow bs pos).length ≠ 4 then .error .shortSegmentRead
  else if List.take 2 (segWindow bs pos) = dqt then .ok pos
  else if declaredLen (segWindow bs pos) < 8 then .error .segmentTooSmall
  else seekToDQTLoopR bs (pos + 4 + (declaredLen (segWindow bs pos) - 2))
termination_by bs.length - pos
decreasing_by
  simp_all [segWindow, declaredLen]
  omega

/-- Function `seekToDQT` of the second package copy. -/
def seekToDQTR (bs : List Nat) : Except JErr Nat := seekToDQTLoopR bs 2

/-- The `ifdOffset` accumulator of `SetMeta` right before the entry loop:
TIFF header + entry count field + 12 bytes per entry + next-IFD pointer. -/
def ifd0Offset (entryCount : Nat) : Nat :=
  tiff.length + 2 + entryCount * 12 + ifd0Next.length

/-- The `app1Len` accumulator of `SetMeta` after its `range` loop: marker
and length fields, EXIF header, IFD0, and each value's bytes plus one NUL
terminator. -/
def app1TotalLen (md : MetaData) : Nat :=
  4 + exif.length + ifd0Offset md.length +
    (md.map fun kv => kv.2.length + 1).sum

/-- The `sorted` slice of `SetMeta`: the map keys as ints, sorted
ascending by `sort.Ints`. -/
def sortedKeys (md : MetaData) : List Nat :=
  List.insertionSort (· ≤ ·) (md.map fun kv => kv.1.toInt)

/-- Value `newData` for one tag in the entry loop: the looked-up value bytes
plus the terminating NUL (a missing key would give Go's zero string). -/
def valOf (md : MetaData) (t : Nat) : List Nat :=
  (mdLookup md (Tag.ofInt t)).getD [] ++ [0x00]

/-- The entry loop of `SetMeta` over the sorted tag ints, carrying the
running `ifdOffset`: returns the concatenated 12-byte IFD entries and the
collected value data blob.  The `scratch.bytes` calls are kept explicit so
that the panic branch remains visible. -/
def entriesLoop (md : MetaData) : List Nat → Nat → Except JErr (List Nat × List Nat)
  | [], _ => .ok ([], [])
  | t :: rest, off =>
    match scratchBytes (valOf md t).length 4, scratchBytes off 4 with
    | some lenBytes, some offBytes =>
      match entriesLoop md rest (off + (valOf md t).length) with
      | .ok (entries, data) =>
        .ok (tagMarker (Tag.ofInt t) ++ lenBytes ++ offBytes ++ entries,
             valOf md t ++ data)
      | .error e => .error e
    | _, _ => .error .panicByteCount

/-- Function `SetMeta` from the source.  The returned byte list is the full
contents of the composed `io.MultiReader`: the new in-memory prefix
followed by the original stream from the DQT marker onward.  Empty
metadata short-circuits to SOI plus the repositioned stream; otherwise the
capacity check rejects `app1Len > 1024*64` before anything is built, and
any scanner failure is propagated with no output. -/
def SetMeta (bs : List Nat) (md : MetaData) : Except JErr (List Nat) :=
  match Assert bs with
  | .error e => .error e
  | .ok _ =>
    if md.length = 0 then
      match seekToDQT bs with
      | .error e => .error e
      | .ok pos => .ok (soi ++ List.drop pos bs)
    else if app1TotalLen md > 1024 * 64 then .error .app1TooLong
    else
      match scratchBytes (app1TotalLen md) 2, scratchBytes md.length 2 with
      | some app1LenBytes, some countBytes =>
        match entriesLoop md (sortedKeys md) (ifd0Offset md.length) with
        | .error e => .error e
        | .ok (entries, data) =>
          match seekToDQT bs with
          | .error e => .error e
          | .ok pos =>
            .ok (soi ++ app1 ++ app1LenBytes ++ exif ++ tiff ++ countBytes ++
                 entries ++ ifd0Next ++ data ++ segPad ++ List.drop pos bs)
      | _, _ => .error .panicByteCount

/-- Closed form of the IFD entry bytes produced by `entriesLoop`. -/
def ebOf (md : MetaData) : List Nat → Nat → List Nat
  | [], _ => []
  | t :: rest, off =>
    tagMarker (Tag.ofInt t) ++ be32 (valOf md t).length ++ be32 off ++
      ebOf md rest (off + (valOf md t).length)

/-- Closed form of the value data blob produced by `entriesLoop`. -/
def dataOf (md : MetaData) : List Nat → List Nat
  | [] => []
  | t :: rest => valOf md t ++ dataOf md rest

/-- Sum of the encoded value lengths of the first `i` sorted tags: the
amount by which the running `ifdOffset` has advanced before entry `i`. -/
def prefixLen (md : MetaData) : List Nat → Nat → Nat
  | _, 0 => 0
  | [], _ + 1 => 0
  | t :: rest, i + 1 => (valOf md t).length + prefixLen md rest i

/-- The emitted output from the start of the TIFF header onward (the TIFF
header begins right after SOI, APP1 marker, APP1 length and EXIF header,
i.e. at byte 12 of the output). -/
def tiffRegion (out : List Nat) : List Nat := List.drop 12 out

/-- The decoded 4-byte value-length field of IFD entry `i` of the emitted
output (entries start at byte 22 of the output; each is 12 bytes: 4 bytes
tag code, 4 bytes length, 4 bytes offset). -/
def entryLenField (out : List Nat) (i : Nat) : Nat :=
  be32decode (List.take 4 (List.drop (22 + 12 * i + 4) out))

/-- The decoded 4-byte offset field of IFD entry `i` of the emitted
output. -/
def entryOffField (out : List Nat) (i : Nat) : Nat :=
  be32decode (List.take 4 (List.drop (22 + 12 * i + 8) out))

/-- The minimal-JPEG source stream of the spec's scenario with the APP1
payload sized to match its declared length `0x000C` (length field plus ten
payload bytes), followed by the DQT marker and EOI. -/
def c1bs : List Nat :=
  [0xFF, 0xD8, 0xFF, 0xE1, 0x00, 0x0C, 0x45, 0x78, 0x69, 0x66,
   0x00, 0x00, 0x00, 0x00, 0x00, 0x00, 0xFF, 0xDB, 0xFF, 0xD9]

/-- The spec scenario's source stream with its byte string taken
literally: `FFD8 FFE1 000C` followed by the written-out eleven bytes
`4578696600000000000000`, then a DQT-led tail `FFDB FFD9`. -/
def c1bad : List Nat :=
  [0xFF, 0xD8, 0xFF, 0xE1, 0x00, 0x0C, 0x45, 0x78, 0x69, 0x66,
   0x00, 0x00, 0x00, 0x00, 0x00, 0x00, 0x00, 0xFF, 0xDB, 0xFF, 0xD9]

/-- The scenario metadata set: `{Artist: "A"}`. -/
def c1md : MetaData := [(Tag.MetaArtist, [0x41])]

/-- The scenario's expected output: SOI, APP1 marker, length field 0x0026,
EXIF header, TIFF header, entry count 1, the Artist entry (tag/type
`013B0002`, length 2, offset 26), zero next-IFD pointer, the value bytes
`41 00`, the 2-byte padding, then the source bytes from `FFDB` onward. -/
def c1out : List Nat :=
  [0xFF, 0xD8, 0xFF, 0xE1, 0x00, 0x26, 0x45, 0x78, 0x69, 0x66, 0x00, 0x00,
   0x4D, 0x4D, 0x00, 0x2A, 0x00, 0x00, 0x00, 0x08, 0x00, 0x01,
   0x01, 0x3B, 0x00, 0x02, 0x00, 0x00, 0x00, 0x02, 0x00, 0x00, 0x00, 0x1A,
   0x00, 0x00, 0x00, 0x00, 0x41, 0x00, 0x00, 0x00, 0xFF, 0xDB, 0xFF, 0xD9]

/-- A two-tag metadata set `{Artist: "A", Title: "T"}` (listed here in
Artist-first iteration order). -/
def c2md : MetaData := [(Tag.MetaArtist, [0x41]), (Tag.MetaTitle, [0x54])]

/-- The output `SetMeta` produces for `c1bs` and `c2md`: the Artist entry
(EXIF tag id `0x013B`) is emitted before the Title entry (EXIF tag id
`0x010E`). -/
def c2out : List Nat :=
  [0xFF, 0xD8, 0xFF, 0xE1, 0x00, 0x34, 0x45, 0x78, 0x69, 0x66, 0x00, 0x00,
   0x4D, 0x4D, 0x00, 0x2A, 0x00, 0x00, 0x00, 0x08, 0x00, 0x02,
   0x01, 0x3B, 0x00, 0x02, 0x00, 0x00, 0x00, 0x02, 0x00, 0x00, 0x00, 0x26,
   0x01, 0x0E, 0x00, 0x02, 0x00, 0x00, 0x00, 0x02, 0x00, 0x00, 0x00, 0x28,
   0x00, 0x00, 0x00, 0x00, 0x41, 0x00, 0x54, 0x00, 0x00, 0x00,
   0xFF, 0xDB, 0xFF, 0xD9]

/-- A 65499-byte string value. -/
def bigVal : List Nat := List.replicate 65499 0x41

/-- A metadata set whose serialized APP1 length is exactly 65536:
one Artist value of 65499 bytes (65536 = 4 + 6 + 26 + 65499 + 1). -/
def bigMD : MetaData := [(Tag.MetaArtist, bigVal)]

/-- A stream whose segment scan reaches exactly the end of the stream:
SOI, then an APP0 segment declaring length 10 whose payload runs to the
final EOI, so the scan's next 4-byte read starts with 0 bytes available. -/
def bs7 : List Nat :=
  [0xFF, 0xD8, 0xFF, 0xE0, 0x00, 0x0A, 0x00, 0x00, 0x00, 0x00, 0x00, 0x00,
   0xFF, 0xD9]

/-- A stream whose first non-DQT segment declares length 3, below the
sanity floor of both scanner copies. -/
def c7bs : List Nat := [0xFF, 0xD8, 0xFF, 0xE0, 0x00, 0x03, 0xFF, 0xD9]

/-! ## Basic facts about the embedded definitions -/

theorem tagMarker_length (t : Tag) : (tagMarker t).length = 4 := by
  cases t <;> rfl

theorem be32_length (n : Nat) : (be32 n).length = 4 := rfl

theorem be16_length (n : Nat) : (be16 n).length = 2 := rfl

theorem ofInt_toInt (t : Tag) : Tag.ofInt t.toInt = t := by
  cases t <;> rfl

theorem be32decode_be32 {n : Nat} (h : n < 2 ^ 32) : be32decode (be32 n) = n := by
  simp only [be32, be32decode, List.foldl]
  omega

/-! ## Scanner lemmas -/

/-- A successful scan position points at a DQT marker. -/
theorem seekToDQTLoop_ok_dqt {bs : List Nat} {pos res : Nat}
    (h : seekToDQTLoop bs pos = .ok res) :
    List.take 2 (List.drop res bs) = dqt := by
  induction pos using seekToDQTLoop.induct bs with
  | case1 pos h1 => rw [seekToDQTLoop] at h; simp [h1] at h
  | case2 pos h1 h2 => rw [seekToDQTLoop] at h; simp [h1, h2] at h
  | case3 pos h1 h2 h3 =>
    rw [seekToDQTLoop] at h
    simp [h1, h2, h3] at h
    subst h
    rw [← h3, segWindow, List.take_take]
    norm_num
  | case4 pos h1 h2 h3 h4 => rw [seekToDQTLoop] at h; simp [h1, h2, h3, h4] at h
  | case5 pos h1 h2 h3 h4 ih =>
    rw [seekToDQTLoop] at h
    have hn1 : ¬ bs.length ≤ pos := by omega
    have hn2 : ¬ (segWindow bs pos).length ≠ 4 := by simp_all
    have hn4 : ¬ declaredLen (segWindow bs pos) < 10 := by omega
    rw [if_neg hn1, if_neg hn2, if_neg h3, if_neg hn4] at h
    exact ih h

/-- The scan loop only ever fails with `io.EOF`, the short-read error or
the under-length error. -/
theorem seekToDQTLoop_error_cases {bs : List Nat} {pos : Nat} {e : JErr}
    (h : seekToDQTLoop bs pos = .error e) :
    e = .eof ∨ e = .shortSegmentRead ∨ e = .segmentTooSmall := by
  induction pos using seekToDQTLoop.induct bs with
  | case1 pos h1 => rw [seekToDQTLoop] at h; simp [h1] at h; simp [← h]
  | case2 pos h1 h2 => rw [seekToDQTLoop] at h; simp [h1, h2] at h; simp [← h]
  | case3 pos h1 h2 h3 => rw [seekToDQTLoop] at h; simp [h1, h2, h3] at h
  | case4 pos h1 h2 h3 h4 =>
    rw [seekToDQTLoop] at h; simp [h1, h2, h3, h4] at h; simp [← h]
  | case5 pos h1 h2 h3 h4 ih =>
    rw [seekToDQTLoop] at h
    have hn1 : ¬ bs.length ≤ pos := by omega
    have hn2 : ¬ (segWindow bs pos).length ≠ 4 := by simp_all
    have hn4 : ¬ declaredLen (segWindow bs pos) < 10 := by omega
    rw [if_neg hn1, if_neg hn2, if_neg h3, if_neg hn4] at h
    exact ih h

/-! ## The entry loop and the shape of a successful `SetMeta` -/

/-- The entry loop never fails: it always produces the closed-form entry
bytes and data blob (in particular its `panic` branch is unreachable). -/
theorem entriesLoop_eq (md : MetaData) (ts : List Nat) (off : Nat) :
    entriesLoop md ts off = .ok (ebOf md ts off, dataOf md ts) := by
  induction ts generalizing off with
  | nil => rfl
  | cons t rest ih => simp [entriesLoop, scratchBytes, ih, ebOf, dataOf]

/-- Shape of the output of a successful non-empty `SetMeta` run. -/
theorem setMeta_ok_shape {bs : List Nat} {md : MetaData} {pos : Nat}
    (hA : Assert bs = .ok ()) (hne : md.length ≠ 0)
    (hcap : app1TotalLen md ≤ 1024 * 64) (hseek : seekToDQT bs = .ok pos) :
    SetMeta bs md = .ok (soi ++ app1 ++ be16 (app1TotalLen md) ++ exif ++
      tiff ++ be16 md.length ++ ebOf md (sortedKeys md) (ifd0Offset md.length) ++
      ifd0Next ++ dataOf md (sortedKeys md) ++ segPad ++ List.drop pos bs) := by
  have hcap' : ¬ app1TotalLen md > 1024 * 64 := by omega
  have hne' : md ≠ [] := fun h => hne (by simp [h])
  unfold SetMeta
  rw [hA]
  simp [hne', if_neg hcap', scratchBytes, entriesLoop_eq, hseek]

/-- A non-empty `SetMeta` run over the capacity limit fails with the
"APP1 segment is too long" error. -/
theorem setMeta_err_capacity {bs : List Nat} {md : MetaData}
    (hA : Assert bs = .ok ()) (hne : md.length ≠ 0)
    (hcap : 1024 * 64 < app1TotalLen md) :
    SetMeta bs md = .error .app1TooLong := by
  have hne' : md ≠ [] := fun h => hne (by simp [h])
  unfold SetMeta
  rw [hA]
  simp [hne', hcap]

/-! ## Lookup lemmas -/

theorem mdLookup_mem {md : MetaData} {t : Tag} {v : List Nat}
    (h : mdLookup md t = some v) : (t, v) ∈ md := by
  induction md with
  | nil => simp [mdLookup] at h
  | cons kv rest ih =>
    obtain ⟨k, w⟩ := kv
    rw [mdLookup] at h
    by_cases hk : k = t
    · rw [if_pos hk] at h
      subst hk
      simp at h
      simp [h]
    · rw [if_neg hk] at h
      exact List.mem_cons_of_mem _ (ih h)

theorem mem_mdLookup {md : MetaData} {t : Tag} {v : List Nat}
    (hnd : (md.map Prod.fst).Nodup) (h : (t, v) ∈ md) :
    mdLookup md t = some v := by
  induction md with
  | nil => simp at h
  | cons kv rest ih =>
    obtain ⟨k, w⟩ := kv
    simp only [List.map_cons, List.nodup_cons] at hnd
    rcases List.mem_cons.mp h with h1 | h1
    · rw [Prod.mk.injEq] at h1
      rw [mdLookup, if_pos h1.1.symm, h1.2]
    · have hk : k ≠ t := by
        intro hk
        subst hk
        exact hnd.1 (List.mem_map.mpr ⟨(k, v), h1, rfl⟩)
      rw [mdLookup, if_neg hk]
      exact ih hnd.2 h1

theorem mdLookup_none {md : MetaData} {t : Tag} :
    mdLookup md t = none ↔ t ∉ md.map Prod.fst := by
  induction md with
  | nil => simp [mdLookup]
  | cons kv rest ih =>
    obtain ⟨k, w⟩ := kv
    rw [mdLookup]
    by_cases hk : k = t
    · subst hk
      simp
    · rw [if_neg hk]
      simp [ih, Ne.symm hk]

/-- With unique keys, map lookup is invariant under permutation of the
association list. -/
theorem mdLookup_perm {md₁ md₂ : MetaData} (hp : md₁.Perm md₂)
    (hnd : (md₁.map Prod.fst).Nodup) (t : Tag) :
    mdLookup md₁ t = mdLookup md₂ t := by
  have hnd₂ : (md₂.map Prod.fst).Nodup := ((hp.map Prod.fst).nodup) hnd
  cases hv : mdLookup md₁ t with
  | some v => exact (mem_mdLookup hnd₂ (hp.mem_iff.mp (mdLookup_mem hv))).symm ▸ rfl
  | none =>
    cases hv₂ : mdLookup md₂ t with
    | none => rfl
    | some v =>
      exact absurd (hp.mem_iff.mpr (mdLookup_mem hv₂))
        (fun hm => (mdLookup_none.mp hv) (List.mem_map.mpr ⟨(t, v), hm, rfl⟩))

/-! ## Canonical ordering lemmas -/

theorem sortedKeys_perm (md : MetaData) :
    (sortedKeys md).Perm (md.map fun kv => kv.1.toInt) :=
  List.perm_insertionSort _ _

theorem sortedKeys_sorted (md : MetaData) :
    List.Sorted (· ≤ ·) (sortedKeys md) :=
  List.sorted_insertionSort _ _

theorem sortedKeys_length (md : MetaData) :
    (sortedKeys md).length = md.length := by
  rw [(sortedKeys_perm md).length_eq, List.length_map]

theorem sortedKeys_eq_of_perm {md₁ md₂ : MetaData} (hp : md₁.Perm md₂) :
    sortedKeys md₁ = sortedKeys md₂ :=
  List.eq_of_perm_of_sorted
    ((sortedKeys_perm md₁).trans ((hp.map _).trans (sortedKeys_perm md₂).symm))
    (sortedKeys_sorted md₁) (sortedKeys_sorted md₂)

theorem valOf_congr {md₁ md₂ : MetaData}
    (h : ∀ t, mdLookup md₁ t = mdLookup md₂ t) (t : Nat) :
    valOf md₁ t = valOf md₂ t := by
  simp [valOf, h]

theorem ebOf_congr {md₁ md₂ : MetaData}
    (h : ∀ t, mdLookup md₁ t = mdLookup md₂ t) (ts : List Nat) (off : Nat) :
    ebOf md₁ ts off = ebOf md₂ ts off := by
  induction ts generalizing off with
  | nil => rfl
  | cons t rest ih => simp [ebOf, valOf_congr h, ih]

theorem dataOf_congr {md₁ md₂ : MetaData}
    (h : ∀ t, mdLookup md₁ t = mdLookup md₂ t) (ts : List Nat) :
    dataOf md₁ ts = dataOf md₂ ts := by
  induction ts with
  | nil => rfl
  | cons t rest ih => simp [dataOf, valOf_congr h, ih]

/-! ## Length and sum lemmas -/

theorem dataOf_length (md : MetaData) (ts : List Nat) :
    (dataOf md ts).length = (ts.map fun t => (valOf md t).length).sum := by
  induction ts with
  | nil => rfl
  | cons t rest ih => simp [dataOf, ih]

theorem ebOf_length (md : MetaData) (ts : List Nat) (off : Nat) :
    (ebOf md ts off).length = 12 * ts.length := by
  induction ts generalizing off with
  | nil => rfl
  | cons t rest ih =>
    simp [ebOf, tagMarker_length, be32_length, ih]
    omega

theorem valOf_of_mem {md : MetaData} (hnd : (md.map Prod.fst).Nodup)
    {k : Tag} {v : List Nat} (h : (k, v) ∈ md) :
    valOf md k.toInt = v ++ [0x00] := by
  simp [valOf, ofInt_toInt, mem_mdLookup hnd h]

/-- With unique keys the data blob of the sorted tags has exactly the
total encoded value length accumulated into `app1Len`. -/
theorem dataOf_sortedKeys_length {md : MetaData}
    (hnd : (md.map Prod.fst).Nodup) :
    (dataOf md (sortedKeys md)).length =
      (md.map fun kv => kv.2.length + 1).sum := by
  rw [dataOf_length, ((sortedKeys_perm md).map fun t => (valOf md t).length).sum_eq,
    List.map_map]
  congr 1
  refine List.map_congr_left fun kv hkv => ?_
  obtain ⟨k, v⟩ := kv
  simp [Function.comp, valOf_of_mem hnd hkv]

/-! ## Reading fields back out of the emitted entry bytes -/

/-- The 4 bytes at position `12*i + 4` of the entry bytes are the encoded
value length of entry `i`. -/
theorem ebOf_len_field (md : MetaData) :
    ∀ (ts : List Nat) (off : Nat) (suffix : List Nat) (i : Nat), i < ts.length →
      List.take 4 (List.drop (12 * i + 4) (ebOf md ts off ++ suffix)) =
        be32 (valOf md (ts.getD i 0)).length := by
  intro ts
  induction ts with
  | nil => intro off suffix i hi; simp at hi
  | cons t rest ih =>
    intro off suffix i hi
    match i with
    | 0 =>
      simp only [ebOf, List.append_assoc, Nat.mul_zero, Nat.zero_add,
        List.getD_cons_zero]
      rw [List.drop_left' (tagMarker_length _), List.take_left' (be32_length _)]
    | i + 1 =>
      simp only [ebOf, List.append_assoc, List.getD_cons_succ]
      rw [show 12 * (i + 1) + 4 = 12 + (12 * i + 4) by ring, ← List.drop_drop]
      rw [show tagMarker (Tag.ofInt t) ++ (be32 (valOf md t).length ++
            (be32 off ++ (ebOf md rest (off + (valOf md t).length) ++ suffix))) =
          (tagMarker (Tag.ofInt t) ++ be32 (valOf md t).length ++ be32 off) ++
            (ebOf md rest (off + (valOf md t).length) ++ suffix) by
        simp [List.append_assoc]]
      rw [List.drop_left' (by simp [tagMarker_length, be32_length])]
      exact ih _ _ i (by simpa using hi)

/-- The 4 bytes at position `12*i + 8` of the entry bytes are the encoded
running offset of entry `i`: the starting offset plus the encoded lengths
of all earlier entries' values. -/
theorem ebOf_off_field (md : MetaData) :
    ∀ (ts : List Nat) (off : Nat) (suffix : List Nat) (i : Nat), i < ts.length →
      List.take 4 (List.drop (12 * i + 8) (ebOf md ts off ++ suffix)) =
        be32 (off + prefixLen md ts i) := by
  intro ts
  induction ts with
  | nil => intro off suffix i hi; simp at hi
  | cons t rest ih =>
    intro off suffix i hi
    match i with
    | 0 =>
      simp only [ebOf, List.append_assoc, Nat.mul_zero, Nat.zero_add, prefixLen,
        Nat.add_zero]
      rw [show (8 : Nat) = 4 + 4 by norm_num, ← List.drop_drop]
      rw [List.drop_left' (tagMarker_length _), List.drop_left' (be32_length _),
        List.take_left' (be32_length _)]
    | i + 1 =>
      simp only [ebOf, List.append_assoc, prefixLen]
      rw [show 12 * (i + 1) + 8 = 12 + (12 * i + 8) by ring, ← List.drop_drop]
      rw [show tagMarker (Tag.ofInt t) ++ (be32 (valOf md t).length ++
            (be32 off ++ (ebOf md rest (off + (valOf md t).length) ++ suffix))) =
          (tagMarker (Tag.ofInt t) ++ be32 (valOf md t).length ++ be32 off) ++
            (ebOf md rest (off + (valOf md t).length) ++ suffix) by
        simp [List.append_assoc]]
      rw [List.drop_left' (by simp [tagMarker_length, be32_length])]
      rw [ih _ _ i (by simpa using hi), Nat.add_assoc]

/-- Reading an entry's value length at its accumulated offset inside the
data blob yields exactly that entry's encoded value. -/
theorem dataOf_read (md : MetaData) :
    ∀ (ts : List Nat) (suffix : List Nat) (i : Nat), i < ts.length →
      List.take (valOf md (ts.getD i 0)).length
        (List.drop (prefixLen md ts i) (dataOf md ts ++ suffix)) =
        valOf md (ts.getD i 0) := by
  intro ts
  induction ts with
  | nil => intro suffix i hi; simp at hi
  | cons t rest ih =>
    intro suffix i hi
    match i with
    | 0 =>
      simp only [dataOf, List.append_assoc, prefixLen, List.drop_zero,
        List.getD_cons_zero]
      rw [List.take_left' rfl]
    | i + 1 =>
      simp only [dataOf, List.append_assoc, prefixLen, List.getD_cons_succ]
      rw [List.drop_append]
      exact ih _ i (by simpa using hi)

/-- Each entry's value lies inside the data blob. -/
theorem prefixLen_bound (md : MetaData) :
    ∀ (ts : List Nat) (i : Nat), i < ts.length →
      prefixLen md ts i + (valOf md (ts.getD i 0)).length ≤
        (dataOf md ts).length := by
  intro ts
  induction ts with
  | nil => intro i hi; simp at hi
  | cons t rest ih =>
    intro i hi
    match i with
    | 0 => simp [prefixLen, dataOf]
    | i + 1 =>
      have := ih i (by simpa using hi)
      simp only [prefixLen, dataOf, List.length_append, List.getD_cons_succ]
      omega

/-- Every sorted key has a value in the map. -/
theorem sortedKeys_getD_lookup {md : MetaData} {i : Nat}
    (hi : i < (sortedKeys md).length) :
    ∃ v, mdLookup md (Tag.ofInt ((sortedKeys md).getD i 0)) = some v := by
  have hmem : (sortedKeys md).getD i 0 ∈ sortedKeys md := by
    rw [List.getD_eq_getElem?_getD, List.getElem?_eq_getElem hi]
    exact List.getElem_mem hi
  have hmem' := (sortedKeys_perm md).mem_iff.mp hmem
  obtain ⟨kv, hkv, heq⟩ := List.mem_map.mp hmem'
  rw [← heq, ofInt_toInt]
  cases hv : mdLookup md kv.1 with
  | some v => exact ⟨v, rfl⟩
  | none =>
    exact absurd (List.mem_map.mpr ⟨kv, hkv, rfl⟩) (mdLookup_none.mp hv)

/-! ## Reads and `Assert` -/

/-- A read whose buffer fits inside the remaining stream fills the whole
buffer and leaves no stale bytes. -/
theorem readFill_full {bs : List Nat} {pos : Nat} {old : List Nat}
    (h : pos + old.length ≤ bs.length) :
    readFill bs pos old = List.take old.length (List.drop pos bs) := by
  unfold readFill
  have hl : (List.take old.length (List.drop pos bs)).length = old.length := by
    simp only [List.length_take, List.length_drop]
    omega
  rw [hl, List.drop_length, List.append_nil]

/-- Function `Assert` only ever fails with `io.EOF`, a negative-seek error or one
of its two marker errors. -/
theorem assert_error_cases {bs : List Nat} {e : JErr}
    (h : Assert bs = .error e) :
    e = .eof ∨ e = .missingSOI ∨ e = .seekNegative ∨ e = .missingEOI := by
  unfold Assert at h
  split_ifs at h <;> simp_all

/-- On a stream of at least two bytes, the first `Read` of `Assert` sees
the first two bytes and the final `Read` sees the last two. -/
theorem assert_eq_of_length {bs : List Nat} (h2 : 2 ≤ bs.length) :
    Assert bs =
      (if List.take 2 bs ≠ soi then .error .missingSOI
       else if List.drop (bs.length - 2) bs ≠ eoi then .error .missingEOI
       else .ok ()) := by
  have hr1 : readFill bs 0 [0, 0] = List.take 2 bs := by
    rw [readFill_full (by simpa using h2)]
    simp
  have hr2 : ∀ old : List Nat, old.length = 2 →
      readFill bs (bs.length - 2) old = List.drop (bs.length - 2) bs := by
    intro old hold
    rw [readFill_full (by omega)]
    rw [hold, List.take_of_length_le (by simp [List.length_drop]; omega)]
  unfold Assert
  rw [if_neg (show ¬ bs.length ≤ 0 by omega), hr1]
  by_cases hs : List.take 2 bs = soi
  · rw [if_neg (show ¬ (List.take 2 bs ≠ soi) from by simp [hs]),
      if_neg (show ¬ bs.length < 2 by omega),
      hr2 _ (by rw [hs]; rfl),
      if_neg (show ¬ (List.take 2 bs ≠ soi) from by simp [hs])]
  · rw [if_pos hs, if_pos hs]

/-! ## `SetMeta` error propagation from the scanner -/

/-- A scanner failure is propagated unchanged by a non-empty `SetMeta`
run that passed the capacity check. -/
theorem setMeta_err_seek {bs : List Nat} {md : MetaData} {e : JErr}
    (hA : Assert bs = .ok ()) (hne : md.length ≠ 0)
    (hcap : app1TotalLen md ≤ 1024 * 64) (hseek : seekToDQT bs = .error e) :
    SetMeta bs md = .error e := by
  have hcap' : ¬ app1TotalLen md > 1024 * 64 := by omega
  have hne' : md ≠ [] := fun h => hne (by simp [h])
  unfold SetMeta
  rw [hA]
  simp [hne', if_neg hcap', scratchBytes, entriesLoop_eq, hseek]

/-- A scanner failure is propagated unchanged by an empty `SetMeta` run. -/
theorem setMeta_err_seek_empty {bs : List Nat} {e : JErr}
    (hA : Assert bs = .ok ()) (hseek : seekToDQT bs = .error e) :
    SetMeta bs [] = .error e := by
  unfold SetMeta
  rw [hA]
  simp [hseek]

/-- An `Assert` failure is propagated unchanged by `SetMeta`. -/
theorem setMeta_err_assert {bs : List Nat} {md : MetaData} {e : JErr}
    (hA : Assert bs = .error e) : SetMeta bs md = .error e := by
  unfold SetMeta
  rw [hA]

/-- The empty-set fast path: SOI followed by the stream from the DQT
marker onward. -/
theorem setMeta_empty_ok {bs : List Nat} {pos : Nat}
    (hA : Assert bs = .ok ()) (hseek : seekToDQT bs = .ok pos) :
    SetMeta bs [] = .ok (soi ++ List.drop pos bs) := by
  unfold SetMeta
  rw [hA]
  simp [hseek]

/-- Function `seekToDQT` inherits the loop's possible failure modes. -/
theorem seekToDQT_error_cases {bs : List Nat} {e : JErr}
    (h : seekToDQT bs = .error e) :
    e = .eof ∨ e = .shortSegmentRead ∨ e = .segmentTooSmall :=
  seekToDQTLoop_error_cases h

/-! ## Concrete runs of the scanner and of `SetMeta` -/

theorem seek_c1 : seekToDQT c1bs = .ok 16 := by
  rw [seekToDQT, seekToDQTLoop]
  norm_num [segWindow, declaredLen, c1bs, dqt]
  rw [seekToDQTLoop]
  norm_num [segWindow, declaredLen, c1bs, dqt]

theorem seek_c1bad : seekToDQT c1bad = .error .eof := by
  rw [seekToDQT, seekToDQTLoop]
  norm_num [segWindow, declaredLen, c1bad, dqt]
  rw [seekToDQTLoop]
  norm_num [segWindow, declaredLen, c1bad, dqt]
  rw [seekToDQTLoop]
  norm_num [c1bad]

theorem seek_bs7 : seekToDQT bs7 = .error .eof := by
  rw [seekToDQT, seekToDQTLoop]
  norm_num [segWindow, declaredLen, bs7, dqt]
  rw [seekToDQTLoop]
  norm_num [bs7]

theorem setMeta_c1_eval : SetMeta c1bs c1md = .ok c1out := by
  unfold SetMeta
  rw [seek_c1]
  rfl

theorem setMeta_c2_eval : SetMeta c1bs c2md = .ok c2out := by
  unfold SetMeta
  rw [seek_c1]
  rfl

/-! ## Facts about the 65536-byte boundary witness `bigMD` -/

theorem mdSum_single (t : Tag) (v : List Nat) :
    ([(t, v)].map fun kv => kv.2.length + 1).sum = v.length + 1 := by
  simp

theorem bigVal_length : bigVal.length = 65499 :=
  List.length_replicate 65499 0x41

theorem bigMD_length_ne : List.length bigMD ≠ 0 := by
  rw [bigMD]
  simp only [List.length_cons]
  omega

theorem app1TotalLen_bigMD : app1TotalLen bigMD = 65536 := by
  rw [app1TotalLen, bigMD, mdSum_single, bigVal_length]
  rfl

/-! ## Claims -/

/-- C1 (counterexample): taking the spec scenario's byte string literally,
the segment after the APP1 marker declares length `0x000C` (12) but is
followed by eleven payload bytes, so the scan's 10-byte skip lands one
byte short of the DQT marker, reads the desynchronized window
`00 FF DB FF`, treats `0xDBFF` as a declared length, skips past the end
of the stream, and fails with `io.EOF` — `SetMeta` produces no output at
all rather than the output the claim describes. -/
theorem C1_counterexample :
    SetMeta c1bad c1md = .error JErr.eof ∧ (SetMeta c1bad c1md).isOk = false := by
  have h : SetMeta c1bad c1md = .error JErr.eof := by
    unfold SetMeta
    rw [seek_c1bad]
    rfl
  exact ⟨h, by rw [h]; rfl⟩

/-- C1 (amended): with the scenario's APP1 payload sized to its declared
length `0x000C` (ten payload bytes instead of the written-out eleven),
`SetMeta` with `{Artist: "A"}` succeeds and emits exactly: SOI, APP1
marker, length field 38 (`0x0026`), EXIF header, TIFF header, entry count
1, the entry `01 3B 00 02` with value length 2 and offset 26, the zero
next-IFD pointer, value bytes `41 00`, the 2-byte zero padding, then the
original bytes from `FFDB` onward unchanged. -/
theorem C1_scenario :
    SetMeta c1bs c1md = .ok c1out ∧
    c1out = soi ++ app1 ++ [0x00, 0x26] ++ exif ++ tiff ++ [0x00, 0x01] ++
      (tagMarker Tag.MetaArtist ++ be32 2 ++ be32 26) ++ ifd0Next ++
      [0x41, 0x00] ++ segPad ++ List.drop 16 c1bs ∧
    List.take 2 (List.drop 16 c1bs) = dqt := by
  refine ⟨setMeta_c1_eval, by rfl, by rfl⟩

/-- C2 (counterexample): for the set `{Artist: "A", Title: "T"}` the
emitted APP1 segment lists the Artist entry (EXIF tag id `0x013B`) first
and the Title entry (EXIF tag id `0x010E`) second, so the IFD entries are
not in ascending order of the 2-byte numeric EXIF tag id. -/
theorem C2_counterexample :
    SetMeta c1bs c2md = .ok c2out ∧
    List.take 2 (List.drop 22 c2out) = [0x01, 0x3B] ∧
    List.take 2 (List.drop 34 c2out) = [0x01, 0x0E] ∧
    ¬ (0x013B : Nat) ≤ 0x010E := by
  exact ⟨setMeta_c2_eval, by rfl, by rfl, by decide⟩

/-- C2 (amended): the IFD entries (and their values in the data blob) are
emitted in ascending order of the internal `tag` constant (`Artist = 0`,
`Title = 1`, `Copyright = 2`), not of the EXIF tag id: the emitted entry
bytes are `ebOf` over `sortedKeys md`, `sortedKeys md` is sorted
ascending, and it is invariant under permutation of the map's iteration
order, so the byte output is canonical. -/
theorem C2_canonical_order (bs : List Nat) (md : MetaData) (pos : Nat)
    (hA : Assert bs = .ok ()) (hne : md.length ≠ 0)
    (hcap : app1TotalLen md ≤ 1024 * 64) (hseek : seekToDQT bs = .ok pos) :
    SetMeta bs md = .ok (soi ++ app1 ++ be16 (app1TotalLen md) ++ exif ++
      tiff ++ be16 md.length ++ ebOf md (sortedKeys md) (ifd0Offset md.length) ++
      ifd0Next ++ dataOf md (sortedKeys md) ++ segPad ++ List.drop pos bs) ∧
    List.Sorted (· ≤ ·) (sortedKeys md) ∧
    ∀ md₂, md.Perm md₂ → sortedKeys md = sortedKeys md₂ :=
  ⟨setMeta_ok_shape hA hne hcap hseek, sortedKeys_sorted md,
   fun _ hp => sortedKeys_eq_of_perm hp⟩

/-- C2 (amended) witness at a concrete stream and metadata set. -/
theorem C2_canonical_order_witness :
    (SetMeta c1bs c2md).isOk = true ∧ List.Sorted (· ≤ ·) (sortedKeys c2md) := by
  have h := C2_canonical_order c1bs c2md 16 rfl (by decide) (by decide) seek_c1
  exact ⟨by rw [h.1]; rfl, h.2.1⟩

/-- C3 (counterexample): a metadata set whose computed total APP1 length
is exactly 65536 is not rejected — the capacity check only fires strictly
above `1024 * 64` — so `SetMeta` succeeds where the claim requires
failure. -/
theorem C3_counterexample :
    app1TotalLen bigMD = 65536 ∧ (SetMeta c1bs bigMD).isOk = true := by
  have hsh := @setMeta_ok_shape c1bs bigMD 16 rfl
    bigMD_length_ne (app1TotalLen_bigMD.le.trans (by norm_num)) seek_c1
  exact ⟨app1TotalLen_bigMD, by rw [hsh]; rfl⟩

/-- C3 (amended): with a valid source stream and reachable DQT marker, a
non-empty `SetMeta` run succeeds whenever the computed total APP1 length
is at most 65536 (in particular at exactly 65535 and at exactly 65536),
and fails with the "APP1 segment is too long" error producing no output
whenever it is 65537 or more. -/
theorem C3_capacity_boundary (bs : List Nat) (md : MetaData) (pos : Nat)
    (hA : Assert bs = .ok ()) (hne : md.length ≠ 0)
    (hseek : seekToDQT bs = .ok pos) :
    (app1TotalLen md ≤ 65536 → (SetMeta bs md).isOk = true) ∧
    (65537 ≤ app1TotalLen md → SetMeta bs md = .error .app1TooLong) := by
  constructor
  · intro h
    rw [setMeta_ok_shape hA hne (by omega) hseek]
    rfl
  · intro h
    exact setMeta_err_capacity hA hne (by omega)

/-- C3 (amended) witness: the scenario stream and metadata set are inside
the capacity limit and succeed. -/
theorem C3_capacity_boundary_witness : (SetMeta c1bs c1md).isOk = true :=
  (C3_capacity_boundary c1bs c1md 16 rfl (by decide) seek_c1).1 (by decide)

/-- C5: on any stream of at least two bytes, `Assert` succeeds exactly
when the first two bytes are the SOI marker and the last two bytes are
the EOI marker; a wrong head fails with the "missing SOI marker" error
and a right head with a wrong tail fails with the "missing EOI marker"
error.  (The source tolerates an `io.EOF` from the final read only; in
this byte-stream model that read can fail no other way.) -/
theorem C5_assert_iff (bs : List Nat) (h2 : 2 ≤ bs.length) :
    (Assert bs = .ok () ↔
      List.take 2 bs = soi ∧ List.drop (bs.length - 2) bs = eoi) ∧
    (List.take 2 bs ≠ soi → Assert bs = .error .missingSOI) ∧
    (List.take 2 bs = soi → List.drop (bs.length - 2) bs ≠ eoi →
      Assert bs = .error .missingEOI) := by
  rw [assert_eq_of_length h2]
  constructor
  · constructor
    · intro h
      by_cases h1 : List.take 2 bs = soi <;>
        by_cases hb : List.drop (bs.length - 2) bs = eoi <;> simp_all
    · intro ⟨h1, hb⟩
      simp [h1, hb]
  · constructor
    · intro h1
      simp [h1]
    · intro h1 hb
      simp [h1, hb]

/-- C5 witness: the minimal SOI-EOI stream is accepted. -/
theorem C5_assert_iff_witness : Assert [0xFF, 0xD8, 0xFF, 0xD9] = .ok () :=
  (C5_assert_iff [0xFF, 0xD8, 0xFF, 0xD9] (by decide)).1.mpr (by decide)

/-- C6: on a valid stream whose scan reaches a DQT marker at `pos`,
`SetMeta` with an empty metadata set succeeds and returns exactly the two
SOI bytes followed by the original stream's bytes from the DQT marker
onward (which indeed start with the DQT marker), with no APP1 segment. -/
theorem C6_empty_set (bs : List Nat) (pos : Nat)
    (hA : Assert bs = .ok ()) (hseek : seekToDQT bs = .ok pos) :
    SetMeta bs [] = .ok (soi ++ List.drop pos bs) ∧
    List.take 2 (List.drop pos bs) = dqt := by
  refine ⟨?_, seekToDQTLoop_ok_dqt hseek⟩
  unfold SetMeta
  rw [hA]
  simp [hseek]

/-- C6 witness: stripping the scenario stream's metadata. -/
theorem C6_empty_set_witness :
    SetMeta c1bs [] = .ok (soi ++ List.drop 16 c1bs) ∧
    List.take 2 (List.drop 16 c1bs) = dqt :=
  C6_empty_set c1bs 16 rfl seek_c1

/-- C7 (counterexample): when the scan's next 4-byte read starts with 0
bytes available, the failure is the propagated `io.EOF` — not the
short-read or under-length format-violation error the claim names — both
at the scanner and through `SetMeta`. -/
theorem C7_counterexample :
    seekToDQT bs7 = .error JErr.eof ∧
    SetMeta bs7 c1md = .error JErr.eof ∧
    JErr.eof ≠ JErr.shortSegmentRead ∧
    JErr.eof ≠ JErr.segmentTooSmall :=
  ⟨seek_bs7, setMeta_err_seek rfl (by decide) (by decide) seek_bs7,
   by decide, by decide⟩

/-- C7 (amended): during scanning, a non-DQT window whose declared length
is below the sanity floor (below 10 for `SetMeta`'s scanner with its
`segLen < 8` floor, below 8 for `ReplaceMeta`'s with its `segLen < 6`
floor — length 3 is below both) fails with the "reported segment length
too small" error; a read finding only 1–3 bytes fails with the
"couldn't read next segment marker and length" error; a read finding 0
bytes fails with `io.EOF` instead; and any scanner error is returned by
`SetMeta` unchanged, with no output reader. -/
theorem C7_scan_failures (bs : List Nat) (pos : Nat) :
    (bs.length ≤ pos → seekToDQTLoop bs pos = .error .eof) ∧
    (pos < bs.length → bs.length < pos + 4 →
      seekToDQTLoop bs pos = .error .shortSegmentRead) ∧
    (pos + 4 ≤ bs.length → List.take 2 (segWindow bs pos) ≠ dqt →
      declaredLen (segWindow bs pos) < 10 →
      seekToDQTLoop bs pos = .error .segmentTooSmall) ∧
    (pos + 4 ≤ bs.length → List.take 2 (segWindow bs pos) ≠ dqt →
      declaredLen (segWindow bs pos) < 8 →
      seekToDQTLoopR bs pos = .error .segmentTooSmall) ∧
    (∀ (md : MetaData) (e : JErr), Assert bs = .ok () → md.length ≠ 0 →
      app1TotalLen md ≤ 1024 * 64 → seekToDQT bs = .error e →
      SetMeta bs md = .error e) := by
  refine ⟨?_, ?_, ?_, ?_, ?_⟩
  · intro h
    rw [seekToDQTLoop, if_pos h]
  · intro h1 h4
    rw [seekToDQTLoop, if_neg (by omega),
      if_pos (show (segWindow bs pos).length ≠ 4 by
        simp only [segWindow, List.length_take, List.length_drop]
        omega)]
  · intro h1 h2 h3
    rw [seekToDQTLoop, if_neg (by omega),
      if_neg (show ¬ (segWindow bs pos).length ≠ 4 by
        simp only [segWindow, List.length_take, List.length_drop]
        omega),
      if_neg h2, if_pos h3]
  · intro h1 h2 h3
    rw [seekToDQTLoopR, if_neg (by omega),
      if_neg (show ¬ (segWindow bs pos).length ≠ 4 by
        simp only [segWindow, List.length_take, List.length_drop]
        omega),
      if_neg h2, if_pos h3]
  · intro md e hA hne hcap hseek
    exact setMeta_err_seek hA hne hcap hseek

/-- C7 (amended) witness: a declared length of 3 trips the under-length
error in both scanner copies. -/
theorem C7_scan_failures_witness :
    seekToDQTLoop c7bs 2 = .error JErr.segmentTooSmall ∧
    seekToDQTLoopR c7bs 2 = .error JErr.segmentTooSmall :=
  ⟨(C7_scan_failures c7bs 2).2.2.1 (by decide) (by decide) (by decide),
   (C7_scan_failures c7bs 2).2.2.2.1 (by decide) (by decide) (by decide)⟩

/-- C4: for every metadata set accepted by `SetMeta` and every IFD entry
`i` of the emitted APP1 segment, the entry's length field decodes to the
value's byte length plus one NUL, its offset field decodes to the IFD0
offset (8 + 2 + 12·count + 4) plus the accumulated encoded lengths of the
earlier entries in canonical order, reading that many bytes at that
offset from the start of the TIFF header yields exactly the original
string for that tag followed by one NUL byte, and the read lies inside
the value data blob. -/
theorem C4_offset_correctness (bs : List Nat) (md : MetaData) (pos : Nat)
    (out : List Nat) (i : Nat)
    (hnd : (md.map Prod.fst).Nodup) (hne : md.length ≠ 0)
    (hA : Assert bs = .ok ()) (hseek : seekToDQT bs = .ok pos)
    (hout : SetMeta bs md = .ok out) (hi : i < md.length) :
    ∃ v, mdLookup md (Tag.ofInt ((sortedKeys md).getD i 0)) = some v ∧
      entryLenField out i = v.length + 1 ∧
      entryOffField out i = ifd0Offset md.length + prefixLen md (sortedKeys md) i ∧
      List.take (entryLenField out i)
        (List.drop (entryOffField out i) (tiffRegion out)) = v ++ [0x00] ∧
      ifd0Offset md.length ≤ entryOffField out i ∧
      entryOffField out i + entryLenField out i ≤
        ifd0Offset md.length + (dataOf md (sortedKeys md)).length := by
  have hcap : app1TotalLen md ≤ 1024 * 64 := by
    by_contra hc
    rw [setMeta_err_capacity hA hne (by omega)] at hout
    simp at hout
  have hts : (sortedKeys md).length = md.length := sortedKeys_length md
  have hi' : i < (sortedKeys md).length := by omega
  obtain ⟨v, hv⟩ := sortedKeys_getD_lookup hi'
  have hval : valOf md ((sortedKeys md).getD i 0) = v ++ [0x00] := by
    rw [valOf, hv]
    rfl
  have hvlen : (valOf md ((sortedKeys md).getD i 0)).length = v.length + 1 := by
    rw [hval]
    simp
  have hshape := setMeta_ok_shape hA hne hcap hseek
  rw [hout] at hshape
  have hoeq : out = soi ++ app1 ++ be16 (app1TotalLen md) ++ exif ++ tiff ++
      be16 md.length ++ ebOf md (sortedKeys md) (ifd0Offset md.length) ++
      ifd0Next ++ dataOf md (sortedKeys md) ++ segPad ++ List.drop pos bs :=
    Except.ok.inj hshape
  have hdata_le : (dataOf md (sortedKeys md)).length ≤ app1TotalLen md := by
    rw [dataOf_sortedKeys_length hnd, app1TotalLen]
    omega
  have hAL : app1TotalLen md =
      10 + ifd0Offset md.length + (dataOf md (sortedKeys md)).length := by
    rw [dataOf_sortedKeys_length hnd, app1TotalLen]
    simp [exif]
  have hpb := prefixLen_bound md (sortedKeys md) i hi'
  have hvbound : (valOf md ((sortedKeys md).getD i 0)).length < 2 ^ 32 := by
    omega
  have hobound : ifd0Offset md.length + prefixLen md (sortedKeys md) i < 2 ^ 32 := by
    omega
  have hsplit22 : out =
      (soi ++ app1 ++ be16 (app1TotalLen md) ++ exif ++ tiff ++ be16 md.length) ++
        (ebOf md (sortedKeys md) (ifd0Offset md.length) ++
          (ifd0Next ++ (dataOf md (sortedKeys md) ++ (segPad ++ List.drop pos bs)))) := by
    rw [hoeq]
    simp [List.append_assoc]
  have hlen22 : (soi ++ app1 ++ be16 (app1TotalLen md) ++ exif ++ tiff ++
      be16 md.length).length = 22 := by
    simp [soi, app1, be16, exif, tiff]
  have hlenf : entryLenField out i = v.length + 1 := by
    rw [entryLenField, hsplit22,
      show 22 + 12 * i + 4 = 22 + (12 * i + 4) by ring, ← hlen22, List.drop_append,
      ebOf_len_field md (sortedKeys md) (ifd0Offset md.length) _ i hi',
      be32decode_be32 hvbound, hvlen]
  have hofff : entryOffField out i =
      ifd0Offset md.length + prefixLen md (sortedKeys md) i := by
    rw [entryOffField, hsplit22,
      show 22 + 12 * i + 8 = 22 + (12 * i + 8) by ring, ← hlen22, List.drop_append,
      ebOf_off_field md (sortedKeys md) (ifd0Offset md.length) _ i hi',
      be32decode_be32 hobound]
  have hTR : tiffRegion out =
      (tiff ++ be16 md.length ++ ebOf md (sortedKeys md) (ifd0Offset md.length) ++
        ifd0Next) ++
        (dataOf md (sortedKeys md) ++ (segPad ++ List.drop pos bs)) := by
    rw [tiffRegion, show out = (soi ++ app1 ++ be16 (app1TotalLen md) ++ exif) ++
        ((tiff ++ be16 md.length ++ ebOf md (sortedKeys md) (ifd0Offset md.length) ++
          ifd0Next) ++ (dataOf md (sortedKeys md) ++ (segPad ++ List.drop pos bs)))
        from by rw [hoeq]; simp [List.append_assoc],
      List.drop_left' (by simp [soi, app1, be16, exif])]
  have hpre_len : (tiff ++ be16 md.length ++ ebOf md (sortedKeys md)
      (ifd0Offset md.length) ++ ifd0Next).length = ifd0Offset md.length := by
    simp [tiff, be16, ifd0Next, ebOf_length, sortedKeys_length, ifd0Offset]
    omega
  have hread : List.take (v.length + 1)
      (List.drop (ifd0Offset md.length + prefixLen md (sortedKeys md) i)
        (tiffRegion out)) = v ++ [0x00] := by
    rw [hTR,
      show ifd0Offset md.length + prefixLen md (sortedKeys md) i =
        (tiff ++ be16 md.length ++ ebOf md (sortedKeys md) (ifd0Offset md.length) ++
          ifd0Next).length + prefixLen md (sortedKeys md) i from by rw [hpre_len],
      List.drop_append, ← hvlen,
      dataOf_read md (sortedKeys md) _ i hi', hval]
  refine ⟨v, hv, hlenf, hofff, ?_, ?_, ?_⟩
  · rw [hlenf, hofff]
    exact hread
  · rw [hofff]
    omega
  · rw [hofff, hlenf]
    omega

/-- C4 witness at the scenario input: the single Artist entry has length
field 2, offset field 26, and reading 2 bytes at offset 26 from the TIFF
header start yields `41 00`. -/
theorem C4_offset_correctness_witness :
    ∃ v, mdLookup c1md (Tag.ofInt ((sortedKeys c1md).getD 0 0)) = some v ∧
      entryLenField c1out 0 = v.length + 1 ∧
      entryOffField c1out 0 =
        ifd0Offset c1md.length + prefixLen c1md (sortedKeys c1md) 0 ∧
      List.take (entryLenField c1out 0)
        (List.drop (entryOffField c1out 0) (tiffRegion c1out)) = v ++ [0x00] ∧
      ifd0Offset c1md.length ≤ entryOffField c1out 0 ∧
      entryOffField c1out 0 + entryLenField c1out 0 ≤
        ifd0Offset c1md.length + (dataOf c1md (sortedKeys c1md)).length :=
  C4_offset_correctness c1bs c1md 16 c1out 0 (by decide) (by decide) rfl
    seek_c1 setMeta_c1_eval (by decide)

/-- C8: `SetMeta` is a pure function of the source bytes and the
metadata's (tag, value) pairs: association lists holding the same pairs
in any iteration order (with the Go map's unique keys) produce the same
result, byte for byte. -/
theorem C8_determinism (bs : List Nat) (md₁ md₂ : MetaData)
    (hp : md₁.Perm md₂) (hnd : (md₁.map Prod.fst).Nodup) :
    SetMeta bs md₁ = SetMeta bs md₂ := by
  have hlen : md₁.length = md₂.length := hp.length_eq
  have hsum : app1TotalLen md₁ = app1TotalLen md₂ := by
    unfold app1TotalLen
    rw [hlen, (hp.map fun kv => kv.2.length + 1).sum_eq]
  have hsk : sortedKeys md₁ = sortedKeys md₂ := sortedKeys_eq_of_perm hp
  have hlook : ∀ t, mdLookup md₁ t = mdLookup md₂ t := mdLookup_perm hp hnd
  unfold SetMeta
  rw [hlen, hsum, hsk, entriesLoop_eq, entriesLoop_eq,
    ebOf_congr hlook, dataOf_congr hlook]

/-- C8 witness: the two iteration orders of `{Artist: "A", Title: "T"}`
give identical output. -/
theorem C8_determinism_witness :
    SetMeta c1bs c2md =
      SetMeta c1bs [(Tag.MetaTitle, [0x54]), (Tag.MetaArtist, [0x41])] :=
  C8_determinism c1bs c2md [(Tag.MetaTitle, [0x54]), (Tag.MetaArtist, [0x41])]
    (by decide) (by decide)

/-- C9: a metadata set whose computed total APP1 length is exactly 65536
passes the capacity check (which rejects only lengths strictly above
`1024 * 64`), and the 2-byte big-endian length field written is
`65536 mod 2^16 = 0`, i.e. the bytes `00 00`. -/
theorem C9_capacity_wrap (bs : List Nat) (md : MetaData) (pos : Nat)
    (hA : Assert bs = .ok ()) (hne : md.length ≠ 0)
    (hseek : seekToDQT bs = .ok pos) (hlen : app1TotalLen md = 65536) :
    SetMeta bs md = .ok (soi ++ app1 ++ [0x00, 0x00] ++ exif ++ tiff ++
      be16 md.length ++ ebOf md (sortedKeys md) (ifd0Offset md.length) ++
      ifd0Next ++ dataOf md (sortedKeys md) ++ segPad ++ List.drop pos bs) := by
  rw [setMeta_ok_shape hA hne (by omega) hseek, hlen]
  norm_num [be16]

/-- C9 witness: the 65536-byte boundary metadata set against the scenario
stream. -/
theorem C9_capacity_wrap_witness :
    SetMeta c1bs bigMD = .ok (soi ++ app1 ++ [0x00, 0x00] ++ exif ++ tiff ++
      be16 bigMD.length ++ ebOf bigMD (sortedKeys bigMD) (ifd0Offset bigMD.length) ++
      ifd0Next ++ dataOf bigMD (sortedKeys bigMD) ++ segPad ++ List.drop 16 c1bs) :=
  C9_capacity_wrap c1bs bigMD 16 rfl bigMD_length_ne seek_c1 app1TotalLen_bigMD

/-- C10: every `scratch.bytes` call in `Assert` and `SetMeta` passes byte
count 2 or 4, so the panic branch is unreachable: no input stream or
metadata set makes either operation end in the panic outcome. -/
theorem C10_no_panic :
    (∀ bs : List Nat, Assert bs ≠ .error .panicByteCount) ∧
    (∀ (bs : List Nat) (md : MetaData), SetMeta bs md ≠ .error .panicByteCount) := by
  constructor
  · intro bs h
    rcases assert_error_cases h with h1 | h1 | h1 | h1 <;> simp at h1
  · intro bs md h
    cases hA : Assert bs with
    | error e =>
      rw [setMeta_err_assert hA] at h
      simp at h
      rw [h] at hA
      rcases assert_error_cases hA with h1 | h1 | h1 | h1 <;> simp at h1
    | ok u =>
      cases u
      by_cases hmd : md.length = 0
      · have hmd' : md = [] := List.length_eq_zero.mp hmd
        subst hmd'
        cases hs : seekToDQT bs with
        | error e =>
          rw [setMeta_err_seek_empty hA hs] at h
          simp at h
          rw [h] at hs
          rcases seekToDQT_error_cases hs with h1 | h1 | h1 <;> simp at h1
        | ok pos =>
          rw [setMeta_empty_ok hA hs] at h
          simp at h
      · by_cases hcap : app1TotalLen md ≤ 1024 * 64
        · cases hs : seekToDQT bs with
          | error e =>
            rw [setMeta_err_seek hA hmd hcap hs] at h
            simp at h
            rw [h] at hs
            rcases seekToDQT_error_cases hs with h1 | h1 | h1 <;> simp at h1
          | ok pos =>
            rw [setMeta_ok_shape hA hmd hcap hs] at h
            simp at h
        · rw [setMeta_err_capacity hA hmd (by omega)] at h
          simp at h

end Jpegutil
